import Mathlib

/-!
Verification of the redis-websocket-pubsub gateway core.

This file gives a shallow embedding, in Lean 4, of the components of the
repository that the specification's claims are about:

* the pub/sub fan-out table (`src/pubsub_manager.c`, refactored version) over
  the reference-counted string pool (`src/string_pool.c`);
* the WebSocket frame engine reader and writer (`websocket.c`);
* the HTTP header store and lookup (`src/http.c`, refactored version);
* the WebSocket opening handshake (`websocket.c` + `base64.c`);
* the byte lexer's `lexer_consume_uint32` (`lexer.c`).

C linked hash chains are modelled as association lists (bucket structure only
partitions keys; search order within one chain is list order), pointers to
canonical pooled strings are modelled by the strings themselves (the pool's
identity guarantee: byte-equal inputs yield the same canonical pointer),
websocket handles are modelled as natural numbers, and machine integers are
natural numbers reduced modulo 2^32 or 2^64 exactly where C overflow matters.
-/

namespace RWP

/-! ## Generic association-list and multiset helpers

These model the C linked hash chains: lookup finds the first node with a
matching key, updates rewrite the first matching node in place, erasure
unlinks the first matching node. -/

/-- Number of occurrences of `a` in `l` (models chain traversal counting). -/
def cnt {α : Type} [DecidableEq α] (a : α) : List α → Nat
  | [] => 0
  | b :: l => (if b = a then 1 else 0) + cnt a l

/-- Remove the first occurrence of `a` from `l`, as the C removal loops do
(scan, unlink the first matching node, `break`). -/
def erase1 {α : Type} [DecidableEq α] (a : α) : List α → List α
  | [] => []
  | b :: l => if b = a then l else b :: erase1 a l

/-- First-match association-list lookup, modelling a hash-chain scan. -/
def alookup {κ α : Type} [DecidableEq κ] (k : κ) : List (κ × α) → Option α
  | [] => none
  | (k2, v) :: l => if k2 = k then some v else alookup k l

/-- Replace the value of the first node whose key is `k`. -/
def updFirst {κ α : Type} [DecidableEq κ] (k : κ) (f : α → α) : List (κ × α) → List (κ × α)
  | [] => []
  | (k2, v) :: l => if k2 = k then (k2, f v) :: l else (k2, v) :: updFirst k f l

/-- Unlink the first node whose key is `k`. -/
def eraseKey {κ α : Type} [DecidableEq κ] (k : κ) : List (κ × α) → List (κ × α)
  | [] => []
  | (k2, v) :: l => if k2 = k then l else (k2, v) :: eraseKey k l

theorem cnt_pos_iff_mem {α : Type} [DecidableEq α] (a : α) (l : List α) :
    0 < cnt a l ↔ a ∈ l := by
  induction l with
  | nil => simp [cnt]
  | cons b l ih =>
    by_cases hb : b = a
    · subst hb; simp [cnt]
    · simp [cnt, hb, ih, Ne.symm hb]

theorem cnt_erase1_self {α : Type} [DecidableEq α] (a : α) (l : List α) (h : a ∈ l) :
    cnt a (erase1 a l) + 1 = cnt a l := by
  induction l with
  | nil => cases h
  | cons b l ih =>
    by_cases hb : b = a
    · subst hb; simp [cnt, erase1, Nat.add_comm]
    · have hm : a ∈ l := by
        cases h with
        | head => exact absurd rfl hb
        | tail _ h2 => exact h2
      simp [cnt, erase1, hb, ih hm, Nat.add_assoc]

theorem erase1_of_not_mem {α : Type} [DecidableEq α] (a : α) (l : List α) (h : a ∉ l) :
    erase1 a l = l := by
  induction l with
  | nil => rfl
  | cons b l ih =>
    have hb : b ≠ a := fun e => h (e ▸ List.mem_cons_self b l)
    have hm : a ∉ l := fun m => h (List.mem_cons_of_mem b m)
    simp [erase1, hb, ih hm]

theorem cnt_erase1_ne {α : Type} [DecidableEq α] (a b : α) (l : List α) (h : a ≠ b) :
    cnt a (erase1 b l) = cnt a l := by
  induction l with
  | nil => rfl
  | cons c l ih =>
    by_cases hc : c = b
    · subst hc
      have hca : ¬c = a := fun e => h (e ▸ rfl)
      simp [cnt, erase1, hca]
    · simp [cnt, erase1, hc, ih]

theorem alookup_updFirst_self {κ α : Type} [DecidableEq κ] (k : κ) (f : α → α)
    (l : List (κ × α)) : alookup k (updFirst k f l) = (alookup k l).map f := by
  induction l with
  | nil => rfl
  | cons p l ih =>
    obtain ⟨a, b⟩ := p
    by_cases hk : a = k
    · subst hk; simp [updFirst, alookup]
    · simp [updFirst, alookup, hk, ih]

theorem alookup_updFirst_ne {κ α : Type} [DecidableEq κ] (k k2 : κ) (f : α → α)
    (l : List (κ × α)) (h : k2 ≠ k) :
    alookup k2 (updFirst k f l) = alookup k2 l := by
  induction l with
  | nil => rfl
  | cons p l ih =>
    obtain ⟨a, b⟩ := p
    by_cases hk : a = k
    · subst hk
      have hne : ¬a = k2 := fun e => h e.symm
      simp [updFirst, alookup, hne]
    · by_cases hk2 : a = k2
      · subst hk2; simp [updFirst, alookup, hk]
      · simp [updFirst, alookup, hk, hk2, ih]

theorem alookup_eraseKey_ne {κ α : Type} [DecidableEq κ] (k k2 : κ)
    (l : List (κ × α)) (h : k2 ≠ k) :
    alookup k2 (eraseKey k l) = alookup k2 l := by
  induction l with
  | nil => rfl
  | cons p l ih =>
    obtain ⟨a, b⟩ := p
    by_cases hk : a = k
    · subst hk
      have hne : ¬a = k2 := fun e => h e.symm
      simp [eraseKey, alookup, hne]
    · by_cases hk2 : a = k2
      · subst hk2; simp [eraseKey, alookup, hk]
      · simp [eraseKey, alookup, hk, hk2, ih]

theorem alookup_append_right {κ α : Type} [DecidableEq κ] (k : κ) (l1 l2 : List (κ × α))
    (h : alookup k l1 = none) : alookup k (l1 ++ l2) = alookup k l2 := by
  induction l1 with
  | nil => rfl
  | cons p l ih =>
    obtain ⟨a, b⟩ := p
    by_cases hk : a = k
    · subst hk; simp [alookup] at h
    · simp [alookup, hk] at h ⊢
      exact ih h

theorem alookup_append_left {κ α : Type} [DecidableEq κ] (k : κ) (l1 l2 : List (κ × α))
    (v : α) (h : alookup k l1 = some v) : alookup k (l1 ++ l2) = some v := by
  induction l1 with
  | nil => simp [alookup] at h
  | cons p l ih =>
    obtain ⟨a, b⟩ := p
    by_cases hk : a = k
    · subst hk; simp [alookup] at h ⊢; exact h
    · simp [alookup, hk] at h ⊢
      exact ih h

/-- Keys of an association list. -/
def keysOf {κ α : Type} (l : List (κ × α)) : List κ := l.map Prod.fst

theorem alookup_eq_none_of_not_mem {κ α : Type} [DecidableEq κ] (k : κ)
    (l : List (κ × α)) (h : k ∉ keysOf l) : alookup k l = none := by
  induction l with
  | nil => rfl
  | cons p l ih =>
    obtain ⟨a, b⟩ := p
    simp [keysOf] at h
    have ha : ¬a = k := fun e => h.1 e.symm
    simp [alookup, ha]
    exact ih (by simpa [keysOf] using h.2)

theorem alookup_eraseKey_self_of_nodup {κ α : Type} [DecidableEq κ] (k : κ)
    (l : List (κ × α)) (hnd : (keysOf l).Nodup) :
    alookup k (eraseKey k l) = none := by
  induction l with
  | nil => rfl
  | cons p l ih =>
    obtain ⟨a, b⟩ := p
    simp [keysOf] at hnd
    by_cases hk : a = k
    · subst hk
      simp [eraseKey]
      exact alookup_eq_none_of_not_mem _ _ (by simpa [keysOf] using hnd.1)
    · simp [eraseKey, alookup, hk]
      exact ih hnd.2

theorem keysOf_updFirst {κ α : Type} [DecidableEq κ] (k : κ) (f : α → α)
    (l : List (κ × α)) : keysOf (updFirst k f l) = keysOf l := by
  induction l with
  | nil => rfl
  | cons p l ih =>
    obtain ⟨a, b⟩ := p
    by_cases hk : a = k
    · subst hk; simp [updFirst, keysOf]
    · simp [updFirst, keysOf, hk]
      simpa [keysOf] using ih

theorem eraseKey_sublist {κ α : Type} [DecidableEq κ] (k : κ) (l : List (κ × α)) :
    (eraseKey k l).Sublist l := by
  induction l with
  | nil => exact List.Sublist.refl _
  | cons p l ih =>
    obtain ⟨a, b⟩ := p
    by_cases hk : a = k
    · subst hk
      simp [eraseKey]
    · simpa [eraseKey, hk] using List.Sublist.cons₂ (a, b) ih

theorem nodup_keysOf_eraseKey {κ α : Type} [DecidableEq κ] (k : κ)
    (l : List (κ × α)) (hnd : (keysOf l).Nodup) : (keysOf (eraseKey k l)).Nodup := by
  exact hnd.sublist (List.Sublist.map Prod.fst (eraseKey_sublist k l))

/-! ## The string pool (`src/string_pool.c`)

A chained hashtable of (string, refcount) nodes; `string_pool_get` returns the
canonical node string, allocating with refcount 0 then incrementing (net: 1 on
first sight, +1 otherwise); `string_pool_release` decrements and unlinks the
node when the count reaches zero.  Canonical pointers are modelled by the
strings themselves, which is exactly the pool's identity guarantee. -/

/-- `string_pool_get`: find the first node whose string equals `s` and bump
its refcount; if absent, append a fresh node (the C code links it at the end
of its bucket chain) with refcount 1. -/
def poolGet (pool : List (String × Nat)) (s : String) : List (String × Nat) :=
  if (alookup s pool).isSome then updFirst s (fun n => n + 1) pool
  else pool ++ [(s, 1)]

/-- `string_pool_release`: decrement the first matching node's refcount and
unlink it when the count reaches zero.  A release of a string that is not in
the pool returns `STATUS_BAD` and changes nothing. -/
def poolRelease (pool : List (String × Nat)) (s : String) : List (String × Nat) :=
  match alookup s pool with
  | none => pool
  | some n => if n - 1 = 0 then eraseKey s pool else updFirst s (fun m => m - 1) pool

/-! ## The pub/sub fan-out manager (`src/src/pubsub_manager.c`)

Channels are strings, websocket handles are naturals.  The two hashtables
`channel_buckets` and `websocket_buckets` are association lists from keys to
value chains; value chains grow by prepending (the C code pushes new
`value_chain` nodes at the head) and shrink by unlinking the first match.
Redis commands issued on the subscription connection are logged in `cmds`. -/

inductive RedisCmd : Type
  | sub (channel : String)
  | unsub (channel : String)
  deriving DecidableEq, Repr

inductive Status : Type
  | bad
  | ok
  | enomem
  | einval
  | disconnected
  deriving DecidableEq, Repr

structure Manager : Type where
  subIsConnected : Bool
  channels : List (String × List Nat)
  sockets : List (Nat × List String)
  pool : List (String × Nat)
  cmds : List RedisCmd
  deriving DecidableEq, Repr

/-- A freshly created manager (`pubsub_manager_create` zeroes both tables and
the pool); `b` is whether the subscription connection has come up. -/
def mkMgr (b : Bool) : Manager :=
  { subIsConnected := b, channels := [], sockets := [], pool := [], cmds := [] }

/-- The websocket chain registered for channel `c` (empty if the key is absent). -/
def chainCh (st : Manager) (c : String) : List Nat :=
  (alookup c st.channels).getD []

/-- The channel chain registered for websocket `s` (empty if the key is absent). -/
def chainWs (st : Manager) (s : Nat) : List String :=
  (alookup s st.sockets).getD []

/-- `on_subscribed_reply_subscribe`: commit one `(channel, websocket)`
registration when the Redis `subscribe` reply arrives.  The websocket is
pushed onto the channel's chain (creating the channel key, which then owns a
second pool reference) and the canonical channel is pushed onto the
websocket's chain (that node owns the first pool reference). -/
def commitSubscribe (st : Manager) (ws : Nat) (c : String) : Manager :=
  let pool1 := poolGet st.pool c
  let existedCh := (alookup c st.channels).isSome
  let channels1 :=
    if existedCh then updFirst c (fun chain => ws :: chain) st.channels
    else st.channels ++ [(c, [ws])]
  let pool2 := if existedCh then pool1 else poolGet pool1 c
  let sockets1 :=
    if (alookup ws st.sockets).isSome then updFirst ws (fun chain => c :: chain) st.sockets
    else st.sockets ++ [(ws, [c])]
  { st with channels := channels1, sockets := sockets1, pool := pool2 }

/-- `pubsub_manager_subscribe`: if the websocket already holds the canonical
channel in its chain, return OK without touching anything; otherwise issue a
Redis `SUBSCRIBE` (logged in `cmds`) and leave the tables untouched until the
reply arrives. -/
def subscribe (st : Manager) (c : String) (ws : Nat) : Manager × Status :=
  if st.subIsConnected = false then (st, Status.disconnected)
  else
    match alookup ws st.sockets with
    | some wchain =>
      let pool1 := poolGet st.pool c
      if c ∈ wchain then ({ st with pool := poolRelease pool1 c }, Status.ok)
      else ({ st with pool := poolRelease pool1 c, cmds := st.cmds ++ [RedisCmd.sub c] },
            Status.ok)
    | none => ({ st with cmds := st.cmds ++ [RedisCmd.sub c] }, Status.ok)

/-- `remove_websocket_from_channel_chain`: unlink `ws` from the channel's
chain; when the chain empties, issue `UNSUBSCRIBE`, release the channel key's
pool reference and unlink the key.  `none` models the `assert(key_chain !=
NULL)` failure: the channel has no key, the tables are inconsistent and the
process aborts. -/
def removeWsFromChannelChain (st : Manager) (c : String) (ws : Nat) :
    Option (Manager × Status) :=
  match alookup c st.channels with
  | none => none
  | some chain =>
    let chain1 := erase1 ws chain
    if chain1 = [] then
      some ({ st with channels := eraseKey c st.channels,
                      pool := poolRelease st.pool c,
                      cmds := st.cmds ++ [RedisCmd.unsub c] }, Status.ok)
    else
      some ({ st with channels := updFirst c (fun _ => chain1) st.channels }, Status.ok)

/-- `pubsub_manager_unsubscribe` (refactored version): remove the canonical
channel from the websocket's chain (releasing its pool reference), drop the
websocket key if its chain empties, then remove the websocket from the
channel's chain via `removeWsFromChannelChain`; the canonical reference taken
at entry is released on every path. -/
def unsubscribe (st : Manager) (c : String) (ws : Nat) : Option (Manager × Status) :=
  if st.subIsConnected = false then some (st, Status.disconnected)
  else
    let pool1 := poolGet st.pool c
    match alookup ws st.sockets with
    | none => some ({ st with pool := poolRelease pool1 c }, Status.ok)
    | some wchain =>
      let pool2 := if c ∈ wchain then poolRelease pool1 c else pool1
      let wchain1 := erase1 c wchain
      let sockets1 :=
        if wchain1 = [] then eraseKey ws st.sockets
        else updFirst ws (fun _ => wchain1) st.sockets
      match removeWsFromChannelChain
          { st with pool := pool2, sockets := sockets1 } c ws with
      | none => none
      | some (st2, ret) => some ({ st2 with pool := poolRelease st2.pool c }, ret)

/-- The per-channel loop of `pubsub_manager_unsubscribe_all`: for each channel
in the websocket's chain, unlink the websocket from that channel's chain and
release the chain node's pool reference.  The websocket's own key node is
unlinked only after the loop. -/
def unsubAllLoop (ws : Nat) : List String → Manager → Option Manager
  | [], st => some st
  | c :: rest, st =>
    match removeWsFromChannelChain st c ws with
    | none => none
    | some (st2, _) => unsubAllLoop ws rest { st2 with pool := poolRelease st2.pool c }

/-- `pubsub_manager_unsubscribe_all`: iterate the websocket's channel chain,
removing the websocket from every channel, then unlink the websocket key. -/
def unsubscribeAll (st : Manager) (ws : Nat) : Option (Manager × Status) :=
  if st.subIsConnected = false then some (st, Status.disconnected)
  else
    match alookup ws st.sockets with
    | none => some (st, Status.ok)
    | some wchain =>
      match unsubAllLoop ws wchain st with
      | none => none
      | some st2 =>
        some ({ st2 with sockets := eraseKey ws st2.sockets }, Status.ok)

/-- The mutual-consistency invariant, strengthened to occurrence counts: the
number of times socket `s` appears in channel `c`'s chain equals the number of
times `c` appears in `s`'s chain.  Membership consistency (the spec's ⇔) is
the `0 <` consequence. -/
def Inv (st : Manager) : Prop :=
  ∀ (c : String) (s : Nat), cnt s (chainCh st c) = cnt c (chainWs st s)

/-- Structural well-formedness of the two tables: key lists have no
duplicates (each key hashes to one bucket and bucket chains never duplicate a
key) and no key maps to an empty chain (empty chains are unlinked at once). -/
def WF (st : Manager) : Prop :=
  (keysOf st.channels).Nodup ∧ (keysOf st.sockets).Nodup ∧
  (∀ p ∈ st.channels, p.2 ≠ []) ∧ (∀ p ∈ st.sockets, p.2 ≠ []) ∧
  (∀ q ∈ st.pool, q.2 ≠ 0)

/-- States reachable from a fresh manager by the public fan-out operations
(the Redis `subscribe`-reply commit, `subscribe`, `unsubscribe`,
`unsubscribe_all`) and the connection callbacks.  Crashing operations
(`none`, the consistency assertion) yield no successor state. -/
inductive Reachable : Manager → Prop
  | init (b : Bool) : Reachable (mkMgr b)
  | setConn {st : Manager} (b : Bool) : Reachable st →
      Reachable { st with subIsConnected := b }
  | commit {st : Manager} (ws : Nat) (c : String) : Reachable st →
      Reachable (commitSubscribe st ws c)
  | subscribeStep {st : Manager} (c : String) (ws : Nat) : Reachable st →
      Reachable (subscribe st c ws).1
  | unsubscribeStep {st st2 : Manager} {ret : Status} (c : String) (ws : Nat) :
      Reachable st → unsubscribe st c ws = some (st2, ret) → Reachable st2
  | unsubscribeAllStep {st st2 : Manager} {ret : Status} (ws : Nat) :
      Reachable st → unsubscribeAll st ws = some (st2, ret) → Reachable st2

/-! ### Association-list auxiliary lemmas used by the preservation proofs -/

theorem alookup_mem {κ α : Type} [DecidableEq κ] (k : κ) (l : List (κ × α)) (v : α)
    (h : alookup k l = some v) : (k, v) ∈ l := by
  induction l with
  | nil => simp [alookup] at h
  | cons p l ih =>
    obtain ⟨a, b⟩ := p
    by_cases hk : a = k
    · subst hk
      simp [alookup] at h
      subst h
      exact List.mem_cons_self _ _
    · simp [alookup, hk] at h
      exact List.mem_cons_of_mem _ (ih h)

theorem alookup_isSome_of_mem_keys {κ α : Type} [DecidableEq κ] (k : κ)
    (l : List (κ × α)) (h : k ∈ keysOf l) : (alookup k l).isSome := by
  induction l with
  | nil => simp [keysOf] at h
  | cons p l ih =>
    obtain ⟨a, b⟩ := p
    by_cases hk : a = k
    · simp [alookup, hk]
    · simp [keysOf, List.mem_cons] at h
      rcases h with h1 | h1
      · exact absurd h1.symm hk
      · simpa [alookup, hk] using ih (by simpa [keysOf] using h1)

theorem not_mem_keys_of_alookup_none {κ α : Type} [DecidableEq κ] (k : κ)
    (l : List (κ × α)) (h : alookup k l = none) : k ∉ keysOf l := by
  intro hmem
  have := alookup_isSome_of_mem_keys k l hmem
  rw [h] at this
  simp at this

theorem eraseKey_append_of_alookup_none {κ α : Type} [DecidableEq κ] (k : κ)
    (l1 l2 : List (κ × α)) (h : alookup k l1 = none) :
    eraseKey k (l1 ++ l2) = l1 ++ eraseKey k l2 := by
  induction l1 with
  | nil => rfl
  | cons p l ih =>
    obtain ⟨a, b⟩ := p
    by_cases hk : a = k
    · subst hk; simp [alookup] at h
    · simp [alookup, hk] at h
      simp [eraseKey, hk, ih h]

theorem mem_updFirst {κ α : Type} [DecidableEq κ] (k : κ) (f : α → α)
    (l : List (κ × α)) (p : κ × α) (h : p ∈ updFirst k f l) :
    p ∈ l ∨ ∃ q, q ∈ l ∧ p = (q.1, f q.2) := by
  induction l with
  | nil => simp [updFirst] at h
  | cons q0 l ih =>
    obtain ⟨a, b⟩ := q0
    by_cases hk : a = k
    · subst hk
      simp [updFirst, List.mem_cons] at h
      rcases h with h1 | h1
      · exact Or.inr ⟨(a, b), List.mem_cons_self _ _, h1⟩
      · exact Or.inl (List.mem_cons_of_mem _ h1)
    · simp [updFirst, hk, List.mem_cons] at h
      rcases h with h1 | h1
      · left; simp [h1]
      · rcases ih h1 with h2 | ⟨q, hq, he⟩
        · exact Or.inl (List.mem_cons_of_mem _ h2)
        · exact Or.inr ⟨q, List.mem_cons_of_mem _ hq, he⟩

theorem mem_updFirst_found {κ α : Type} [DecidableEq κ] (k : κ) (f : α → α)
    (l : List (κ × α)) (p : κ × α) (h : p ∈ updFirst k f l) :
    p ∈ l ∨ ∃ v, alookup k l = some v ∧ p = (k, f v) := by
  induction l with
  | nil => simp [updFirst] at h
  | cons q0 l ih =>
    obtain ⟨a, b⟩ := q0
    by_cases hk : a = k
    · subst hk
      simp [updFirst, List.mem_cons] at h
      rcases h with h1 | h1
      · exact Or.inr ⟨b, by simp [alookup], by simp [h1]⟩
      · exact Or.inl (List.mem_cons_of_mem _ h1)
    · simp [updFirst, hk, List.mem_cons] at h
      rcases h with h1 | h1
      · left; simp [h1]
      · rcases ih h1 with h2 | ⟨v, hv, he⟩
        · exact Or.inl (List.mem_cons_of_mem _ h2)
        · exact Or.inr ⟨v, by simpa [alookup, hk] using hv, he⟩

theorem alookup_append_single_ne {κ α : Type} [DecidableEq κ] (k k2 : κ) (v : α)
    (l : List (κ × α)) (h : k2 ≠ k) :
    alookup k2 (l ++ [(k, v)]) = alookup k2 l := by
  cases h0 : alookup k2 l with
  | some w => exact alookup_append_left k2 l _ w h0
  | none =>
    rw [alookup_append_right k2 l _ h0]
    have hne : ¬k = k2 := fun e => h e.symm
    simp [alookup, hne, h0]

theorem updFirst_sub_updFirst_add {κ : Type} [DecidableEq κ] (k : κ)
    (l : List (κ × Nat)) :
    updFirst k (fun m => m - 1) (updFirst k (fun m => m + 1) l) = l := by
  induction l with
  | nil => rfl
  | cons p l ih =>
    obtain ⟨a, b⟩ := p
    by_cases hk : a = k
    · subst hk; simp [updFirst]
    · simp [updFirst, hk, ih]

/-! ### String-pool lemmas -/

/-- Pools arising from balanced get/release sequences hold only live nodes. -/
abbrev PoolWF (pool : List (String × Nat)) : Prop := ∀ q ∈ pool, q.2 ≠ 0

theorem poolGet_wf (pool : List (String × Nat)) (c : String) (h : PoolWF pool) :
    PoolWF (poolGet pool c) := by
  intro q hq
  unfold poolGet at hq
  by_cases h0 : (alookup c pool).isSome
  · simp [h0] at hq
    rcases mem_updFirst c _ pool q hq with h1 | ⟨q2, hq2, he⟩
    · exact h q h1
    · rw [he]; simp
  · simp [h0] at hq
    rcases hq with h1 | h1
    · exact h q h1
    · rw [h1]; simp

theorem poolRelease_wf (pool : List (String × Nat)) (c : String) (h : PoolWF pool) :
    PoolWF (poolRelease pool c) := by
  intro q hq
  unfold poolRelease at hq
  cases h0 : alookup c pool with
  | none => rw [h0] at hq; exact h q hq
  | some n =>
    rw [h0] at hq
    by_cases h1 : n - 1 = 0
    · simp [h1] at hq
      exact h q ((eraseKey_sublist c pool).mem hq)
    · simp [h1] at hq
      rcases mem_updFirst_found c _ pool q hq with h2 | ⟨v, hv, he⟩
      · exact h q h2
      · rw [h0] at hv
        cases hv
        rw [he]
        simpa using h1

theorem poolRelease_poolGet (pool : List (String × Nat)) (c : String)
    (h : PoolWF pool) : poolRelease (poolGet pool c) c = pool := by
  cases h0 : alookup c pool with
  | some n =>
    have hne : n ≠ 0 := h (c, n) (alookup_mem c pool n h0)
    have hg : poolGet pool c = updFirst c (fun m => m + 1) pool := by
      simp [poolGet, h0]
    have hl : alookup c (updFirst c (fun m => m + 1) pool) = some (n + 1) := by
      rw [alookup_updFirst_self, h0]; rfl
    have hnz : ¬n + 1 - 1 = 0 := by omega
    rw [hg]
    simp [poolRelease, hl, hnz, hne, updFirst_sub_updFirst_add]
  | none =>
    have hg : poolGet pool c = pool ++ [(c, 1)] := by
      simp [poolGet, h0]
    have hl : alookup c (pool ++ [(c, 1)]) = some 1 := by
      rw [alookup_append_right c pool _ h0]
      simp [alookup]
    rw [hg]
    simp [poolRelease, hl]
    rw [eraseKey_append_of_alookup_none c pool _ h0]
    simp [eraseKey]

/-! ### Chain characterizations of `commitSubscribe` -/

theorem chainCh_commit_self (st : Manager) (ws : Nat) (c : String) :
    chainCh (commitSubscribe st ws c) c = ws :: chainCh st c := by
  cases h0 : alookup c st.channels with
  | some chain =>
    simp [commitSubscribe, chainCh, h0, alookup_updFirst_self]
  | none =>
    simp [commitSubscribe, chainCh, h0,
      alookup_append_right c st.channels _ h0, alookup]

theorem chainCh_commit_ne (st : Manager) (ws : Nat) (c c2 : String) (h : c2 ≠ c) :
    chainCh (commitSubscribe st ws c) c2 = chainCh st c2 := by
  cases h0 : alookup c st.channels with
  | some chain =>
    simp [commitSubscribe, chainCh, h0, alookup_updFirst_ne c c2 _ _ h]
  | none =>
    simp [commitSubscribe, chainCh, h0, alookup_append_single_ne c c2 _ _ h]

theorem chainWs_commit_self (st : Manager) (ws : Nat) (c : String) :
    chainWs (commitSubscribe st ws c) ws = c :: chainWs st ws := by
  cases h0 : alookup ws st.sockets with
  | some chain =>
    simp [commitSubscribe, chainWs, h0, alookup_updFirst_self]
  | none =>
    simp [commitSubscribe, chainWs, h0,
      alookup_append_right ws st.sockets _ h0, alookup]

theorem chainWs_commit_ne (st : Manager) (ws s2 : Nat) (c : String) (h : s2 ≠ ws) :
    chainWs (commitSubscribe st ws c) s2 = chainWs st s2 := by
  cases h0 : alookup ws st.sockets with
  | some chain =>
    simp [commitSubscribe, chainWs, h0, alookup_updFirst_ne ws s2 _ _ h]
  | none =>
    simp [commitSubscribe, chainWs, h0, alookup_append_single_ne ws s2 _ _ h]

/-! ### The commit step preserves the invariants -/

theorem commit_Inv (st : Manager) (ws : Nat) (c : String) (hInv : Inv st) :
    Inv (commitSubscribe st ws c) := by
  intro c2 s2
  by_cases hc : c2 = c <;> by_cases hs : s2 = ws
  · subst hc; subst hs
    rw [chainCh_commit_self, chainWs_commit_self]
    simp [cnt]
    exact hInv c2 s2
  · subst hc
    rw [chainCh_commit_self, chainWs_commit_ne st ws s2 c2 hs]
    have hws : ¬ws = s2 := fun e => hs e.symm
    simp [cnt, hws]
    exact hInv c2 s2
  · subst hs
    rw [chainWs_commit_self, chainCh_commit_ne st s2 c c2 hc]
    have hcc : ¬c = c2 := fun e => hc e.symm
    simp [cnt, hcc]
    exact hInv c2 s2
  · rw [chainCh_commit_ne st ws c c2 hc, chainWs_commit_ne st ws s2 c hs]
    exact hInv c2 s2

theorem commit_WF (st : Manager) (ws : Nat) (c : String) (hWF : WF st) :
    WF (commitSubscribe st ws c) := by
  obtain ⟨hnd1, hnd2, hne1, hne2, hpw⟩ := hWF
  refine ⟨?_, ?_, ?_, ?_, ?_⟩
  · -- channel keys stay nodup
    simp only [commitSubscribe]
    cases h0 : alookup c st.channels with
    | some chain => simpa [h0, keysOf_updFirst] using hnd1
    | none =>
      have hcm : c ∉ keysOf st.channels := not_mem_keys_of_alookup_none c _ h0
      simp [h0, keysOf]
      refine List.Nodup.append (by simpa [keysOf] using hnd1) (List.nodup_singleton c) ?_
      intro a ha hb
      simp at hb
      subst hb
      exact hcm (by simpa [keysOf] using ha)
  · -- socket keys stay nodup
    simp only [commitSubscribe]
    cases h0 : alookup ws st.sockets with
    | some chain => simpa [h0, keysOf_updFirst] using hnd2
    | none =>
      have hcm : ws ∉ keysOf st.sockets := not_mem_keys_of_alookup_none ws _ h0
      simp [h0, keysOf]
      refine List.Nodup.append (by simpa [keysOf] using hnd2) (List.nodup_singleton ws) ?_
      intro a ha hb
      simp at hb
      subst hb
      exact hcm (by simpa [keysOf] using ha)
  · -- channel chains stay nonempty
    intro p hp
    simp only [commitSubscribe] at hp
    cases h0 : alookup c st.channels with
    | some chain =>
      rw [h0] at hp
      simp at hp
      rcases mem_updFirst_found c _ st.channels p hp with h1 | ⟨v, hv, he⟩
      · exact hne1 p h1
      · rw [he]; simp
    | none =>
      rw [h0] at hp
      simp at hp
      rcases hp with h1 | h1
      · exact hne1 p h1
      · rw [h1]; simp
  · -- socket chains stay nonempty
    intro p hp
    simp only [commitSubscribe] at hp
    cases h0 : alookup ws st.sockets with
    | some chain =>
      rw [h0] at hp
      simp at hp
      rcases mem_updFirst_found ws _ st.sockets p hp with h1 | ⟨v, hv, he⟩
      · exact hne2 p h1
      · rw [he]; simp
    | none =>
      rw [h0] at hp
      simp at hp
      rcases hp with h1 | h1
      · exact hne2 p h1
      · rw [h1]; simp
  · -- pool stays well formed
    simp only [commitSubscribe]
    cases h0 : alookup c st.channels with
    | some chain => simpa [h0] using poolGet_wf _ c hpw
    | none => simpa [h0] using poolGet_wf _ c (poolGet_wf _ c hpw)

/-! ### `subscribe` touches only the command log -/

theorem mgr_eta_conn (st : Manager) (b : Bool) (h : st.subIsConnected = b) :
    ({ subIsConnected := b, channels := st.channels, sockets := st.sockets,
       pool := st.pool, cmds := st.cmds } : Manager) = st := by
  cases st
  cases h
  rfl

theorem subscribe_already_registered (st : Manager) (c : String) (ws : Nat)
    (hconn : st.subIsConnected = true) (hpw : PoolWF st.pool)
    (hmem : c ∈ chainWs st ws) : subscribe st c ws = (st, Status.ok) := by
  cases h0 : alookup ws st.sockets with
  | none => simp [chainWs, h0] at hmem
  | some wchain =>
    have hm2 : c ∈ wchain := by simpa [chainWs, h0] using hmem
    have hpr := poolRelease_poolGet st.pool c hpw
    simp [subscribe, hconn, h0, hm2, hpr, mgr_eta_conn st true hconn]

theorem subscribe_fresh (st : Manager) (c : String) (ws : Nat)
    (hconn : st.subIsConnected = true) (hpw : PoolWF st.pool)
    (hmem : c ∉ chainWs st ws) :
    subscribe st c ws = ({ st with cmds := st.cmds ++ [RedisCmd.sub c] }, Status.ok) := by
  cases h0 : alookup ws st.sockets with
  | none => simp [subscribe, hconn, h0]
  | some wchain =>
    have hm2 : c ∉ wchain := by simpa [chainWs, h0] using hmem
    have hpr := poolRelease_poolGet st.pool c hpw
    simp [subscribe, hconn, h0, hm2, hpr]

/-! ### Characterization of `unsubscribe` in the interesting case -/

theorem unsubscribe_char (st : Manager) (c : String) (ws : Nat)
    (hconn : st.subIsConnected = true)
    (W : List String) (h0 : alookup ws st.sockets = some W)
    (L : List Nat) (h1 : alookup c st.channels = some L) :
    unsubscribe st c ws = some
      ({ st with
          channels := if erase1 ws L = [] then eraseKey c st.channels
                      else updFirst c (fun _ => erase1 ws L) st.channels,
          sockets := if erase1 c W = [] then eraseKey ws st.sockets
                     else updFirst ws (fun _ => erase1 c W) st.sockets,
          pool :=
            (let pool2 := if c ∈ W then poolRelease (poolGet st.pool c) c
                          else poolGet st.pool c
             poolRelease (if erase1 ws L = [] then poolRelease pool2 c else pool2) c),
          cmds := st.cmds ++ (if erase1 ws L = [] then [RedisCmd.unsub c] else []) },
        Status.ok) := by
  by_cases hL : erase1 ws L = [] <;> by_cases hW : erase1 c W = [] <;>
    simp [unsubscribe, hconn, h0, removeWsFromChannelChain, h1, hL, hW]

/-! ### `unsubscribe` preserves the invariants -/

theorem unsubscribe_preserves (st st2 : Manager) (c : String) (ws : Nat) (ret : Status)
    (hInv : Inv st) (hWF : WF st)
    (hsome : unsubscribe st c ws = some (st2, ret)) :
    Inv st2 ∧ WF st2 := by
  obtain ⟨hnd1, hnd2, hne1, hne2, hpw⟩ := hWF
  by_cases hconn : st.subIsConnected = true
  case neg =>
    have hc2 : st.subIsConnected = false := by
      cases hb : st.subIsConnected
      · rfl
      · exact absurd hb hconn
    simp [unsubscribe, hc2] at hsome
    rw [← hsome.1]
    exact ⟨hInv, hnd1, hnd2, hne1, hne2, hpw⟩
  case pos =>
  cases h0 : alookup ws st.sockets with
  | none =>
    simp [unsubscribe, hconn, h0, poolRelease_poolGet st.pool c hpw] at hsome
    rw [← hsome.1]
    exact ⟨hInv, hnd1, hnd2, hne1, hne2, hpw⟩
  | some W =>
    cases h1 : alookup c st.channels with
    | none =>
      simp [unsubscribe, hconn, h0, removeWsFromChannelChain, h1] at hsome
    | some L =>
      rw [unsubscribe_char st c ws hconn W h0 L h1] at hsome
      rw [Option.some_inj, Prod.mk.injEq] at hsome
      obtain ⟨hst2, hret⟩ := hsome
      rw [← hst2]
      -- characterize the chains of the successor state
      have hCC : ∀ c2, chainCh
          { st with
            channels := if erase1 ws L = [] then eraseKey c st.channels
                        else updFirst c (fun _ => erase1 ws L) st.channels,
            sockets := if erase1 c W = [] then eraseKey ws st.sockets
                       else updFirst ws (fun _ => erase1 c W) st.sockets,
            pool :=
              (let pool2 := if c ∈ W then poolRelease (poolGet st.pool c) c
                            else poolGet st.pool c
               poolRelease (if erase1 ws L = [] then poolRelease pool2 c else pool2) c),
            cmds := st.cmds ++ (if erase1 ws L = [] then [RedisCmd.unsub c] else []) } c2 =
          if c2 = c then erase1 ws L else chainCh st c2 := by
        intro c2
        by_cases hc2 : c2 = c
        · subst hc2
          by_cases hL : erase1 ws L = []
          · simp [chainCh, hL, alookup_eraseKey_self_of_nodup c2 st.channels hnd1]
          · simp [chainCh, hL, alookup_updFirst_self, h1]
        · by_cases hL : erase1 ws L = []
          · simp [chainCh, hL, hc2, alookup_eraseKey_ne c c2 st.channels hc2]
          · simp [chainCh, hL, hc2, alookup_updFirst_ne c c2 _ st.channels hc2]
      have hCW : ∀ s2, chainWs
          { st with
            channels := if erase1 ws L = [] then eraseKey c st.channels
                        else updFirst c (fun _ => erase1 ws L) st.channels,
            sockets := if erase1 c W = [] then eraseKey ws st.sockets
                       else updFirst ws (fun _ => erase1 c W) st.sockets,
            pool :=
              (let pool2 := if c ∈ W then poolRelease (poolGet st.pool c) c
                            else poolGet st.pool c
               poolRelease (if erase1 ws L = [] then poolRelease pool2 c else pool2) c),
            cmds := st.cmds ++ (if erase1 ws L = [] then [RedisCmd.unsub c] else []) } s2 =
          if s2 = ws then erase1 c W else chainWs st s2 := by
        intro s2
        by_cases hs2 : s2 = ws
        · subst hs2
          by_cases hW : erase1 c W = []
          · simp [chainWs, hW, alookup_eraseKey_self_of_nodup s2 st.sockets hnd2]
          · simp [chainWs, hW, alookup_updFirst_self, h0]
        · by_cases hW : erase1 c W = []
          · simp [chainWs, hW, hs2, alookup_eraseKey_ne ws s2 st.sockets hs2]
          · simp [chainWs, hW, hs2, alookup_updFirst_ne ws s2 _ st.sockets hs2]
      constructor
      · -- the count invariant
        intro c2 s2
        rw [hCC c2, hCW s2]
        have hLc : L = chainCh st c := by simp [chainCh, h1]
        have hWc : W = chainWs st ws := by simp [chainWs, h0]
        by_cases hc2 : c2 = c
        case pos =>
          by_cases hs2 : s2 = ws
          case pos =>
            rw [if_pos hc2, if_pos hs2]
            subst hc2; subst hs2
            by_cases hm : s2 ∈ L
            case pos =>
              have hm2 : c2 ∈ W := by
                rw [hWc]
                rw [← cnt_pos_iff_mem]
                rw [← hInv c2 s2]
                rw [hLc] at hm
                rw [← cnt_pos_iff_mem] at hm
                exact hm
              have e1 := cnt_erase1_self s2 L hm
              have e2 := cnt_erase1_self c2 W hm2
              have e3 : cnt s2 L = cnt c2 W := by rw [hLc, hWc]; exact hInv c2 s2
              omega
            case neg =>
              have hm2 : c2 ∉ W := by
                rw [hWc]
                rw [← cnt_pos_iff_mem] at hm ⊢
                rw [← hInv c2 s2]
                rw [hLc] at hm
                intro hcon
                exact hm hcon
              rw [erase1_of_not_mem s2 L hm, erase1_of_not_mem c2 W hm2]
              rw [hLc, hWc]
              exact hInv c2 s2
          case neg =>
            rw [if_pos hc2, if_neg hs2]
            subst hc2
            have e1 : cnt s2 (erase1 ws L) = cnt s2 L := cnt_erase1_ne s2 ws L hs2
            rw [e1, hLc]
            exact hInv c2 s2
        case neg =>
          by_cases hs2 : s2 = ws
          case pos =>
            rw [if_neg hc2, if_pos hs2]
            subst hs2
            have e1 : cnt c2 (erase1 c W) = cnt c2 W := cnt_erase1_ne c2 c W hc2
            rw [e1, hWc]
            exact hInv c2 s2
          case neg =>
            rw [if_neg hc2, if_neg hs2]
            exact hInv c2 s2
      · -- well-formedness
        refine ⟨?_, ?_, ?_, ?_, ?_⟩
        · by_cases hL : erase1 ws L = []
          · simpa [hL] using nodup_keysOf_eraseKey c st.channels hnd1
          · simpa [hL, keysOf_updFirst] using hnd1
        · by_cases hW : erase1 c W = []
          · simpa [hW] using nodup_keysOf_eraseKey ws st.sockets hnd2
          · simpa [hW, keysOf_updFirst] using hnd2
        · intro p hp
          by_cases hL : erase1 ws L = []
          · simp [hL] at hp
            exact hne1 p ((eraseKey_sublist c st.channels).mem hp)
          · simp [hL] at hp
            rcases mem_updFirst_found c _ st.channels p hp with h2 | ⟨v, hv, he⟩
            · exact hne1 p h2
            · rw [he]; simpa using hL
        · intro p hp
          by_cases hW : erase1 c W = []
          · simp [hW] at hp
            exact hne2 p ((eraseKey_sublist ws st.sockets).mem hp)
          · simp [hW] at hp
            rcases mem_updFirst_found ws _ st.sockets p hp with h2 | ⟨v, hv, he⟩
            · exact hne2 p h2
            · rw [he]; simpa using hW
        · -- the pool stays well formed
          have w1 : PoolWF (poolGet st.pool c) := poolGet_wf st.pool c hpw
          have w2 : PoolWF (if c ∈ W then poolRelease (poolGet st.pool c) c
                            else poolGet st.pool c) := by
            by_cases hm : c ∈ W
            · simpa [hm] using poolRelease_wf _ c w1
            · simpa [hm] using w1
          have w3 : PoolWF (if erase1 ws L = []
              then poolRelease (if c ∈ W then poolRelease (poolGet st.pool c) c
                                else poolGet st.pool c) c
              else (if c ∈ W then poolRelease (poolGet st.pool c) c
                    else poolGet st.pool c)) := by
            by_cases hL : erase1 ws L = []
            · simpa [hL] using poolRelease_wf _ c w2
            · simpa [hL] using w2
          simpa using poolRelease_wf _ c w3

/-! ### `unsubscribe_all` preserves the invariants -/

theorem unsubAllLoop_spec (ws : Nat) (rest : List String) :
    ∀ (stI : Manager),
    (∀ c2, cnt ws (chainCh stI c2) = cnt c2 rest) →
    (keysOf stI.channels).Nodup →
    (∀ p ∈ stI.channels, p.2 ≠ []) →
    PoolWF stI.pool →
    ∃ stF, unsubAllLoop ws rest stI = some stF ∧
      stF.sockets = stI.sockets ∧
      stF.subIsConnected = stI.subIsConnected ∧
      (∀ c2, cnt ws (chainCh stF c2) = 0) ∧
      (∀ s2, s2 ≠ ws → ∀ c2, cnt s2 (chainCh stF c2) = cnt s2 (chainCh stI c2)) ∧
      (keysOf stF.channels).Nodup ∧ (∀ p ∈ stF.channels, p.2 ≠ []) ∧
      PoolWF stF.pool := by
  induction rest with
  | nil =>
    intro stI h1 hnd hne hpw
    refine ⟨stI, rfl, rfl, rfl, ?_, ?_, hnd, hne, hpw⟩
    · intro c2; simpa [cnt] using h1 c2
    · intro s2 _ c2; rfl
  | cons c rest ih =>
    intro stI h1 hnd hne hpw
    -- the websocket is in this channel chain, so the key exists
    have hmem : ws ∈ chainCh stI c := by
      rw [← cnt_pos_iff_mem, h1 c]
      simp [cnt]
    have hkey : ∃ L, alookup c stI.channels = some L := by
      cases hk : alookup c stI.channels with
      | none => simp [chainCh, hk] at hmem
      | some L => exact ⟨L, rfl⟩
    obtain ⟨L, hk⟩ := hkey
    have hLc : chainCh stI c = L := by simp [chainCh, hk]
    rw [hLc] at hmem
    -- the two branches of removeWsFromChannelChain
    by_cases hL : erase1 ws L = []
    case pos =>
      have hrm : removeWsFromChannelChain stI c ws =
          some ({ stI with channels := eraseKey c stI.channels,
                           pool := poolRelease stI.pool c,
                           cmds := stI.cmds ++ [RedisCmd.unsub c] }, Status.ok) := by
        simp [removeWsFromChannelChain, hk, hL]
      set stM : Manager :=
        { stI with channels := eraseKey c stI.channels,
                   pool := poolRelease (poolRelease stI.pool c) c,
                   cmds := stI.cmds ++ [RedisCmd.unsub c] } with hstM
      have hstep : unsubAllLoop ws (c :: rest) stI = unsubAllLoop ws rest stM := by
        simp [unsubAllLoop, hrm, hstM]
      have hCC : ∀ c2, chainCh stM c2 = if c2 = c then [] else chainCh stI c2 := by
        intro c2
        by_cases hc2 : c2 = c
        · subst hc2
          simp [hstM, chainCh, alookup_eraseKey_self_of_nodup c2 stI.channels hnd]
        · simp [hstM, chainCh, hc2, alookup_eraseKey_ne c c2 stI.channels hc2]
      have h1M : ∀ c2, cnt ws (chainCh stM c2) = cnt c2 rest := by
        intro c2
        rw [hCC c2]
        by_cases hc2 : c2 = c
        · subst hc2
          rw [if_pos rfl]
          have := h1 c2
          rw [hLc] at this
          simp [cnt] at this
          have e1 := cnt_erase1_self ws L hmem
          -- erase1 ws L = [] so cnt ws L = 1, and cnt c2 rest = cnt ws L - 1 = 0
          rw [hL] at e1
          simp only [cnt] at e1 ⊢
          omega
        · rw [if_neg hc2]
          have := h1 c2
          have hcc : ¬c = c2 := fun e => hc2 e.symm
          simp [cnt, hcc] at this
          exact this
      obtain ⟨stF, hloop, hsock, hconn2, hzero, hpres, hndF, hneF, hpwF⟩ :=
        ih stM h1M (by simpa [hstM] using nodup_keysOf_eraseKey c stI.channels hnd)
          (by
            intro p hp
            simp [hstM] at hp
            exact hne p ((eraseKey_sublist c stI.channels).mem hp))
          (by simpa [hstM] using poolRelease_wf _ c (poolRelease_wf _ c hpw))
      refine ⟨stF, by rw [hstep]; exact hloop, by simpa [hstM] using hsock,
        by simpa [hstM] using hconn2, hzero, ?_, hndF, hneF, hpwF⟩
      intro s2 hs2 c2
      rw [hpres s2 hs2 c2, hCC c2]
      by_cases hc2 : c2 = c
      · subst hc2
        rw [if_pos rfl, hLc]
        -- s2 does not occur in L: L = [ws, ...duplicates of ws]?  No:
        -- erase1 ws L = [] forces L = [ws]
        cases L with
        | nil => cases hmem
        | cons x xs =>
          by_cases hx : x = ws
          · subst hx
            simp [erase1] at hL
            subst hL
            have hxs : ¬x = s2 := fun e => hs2 e.symm
            simp [cnt, hxs]
          · simp [erase1, hx] at hL
      · rw [if_neg hc2]
    case neg =>
      have hrm : removeWsFromChannelChain stI c ws =
          some ({ stI with
                    channels := updFirst c (fun _ => erase1 ws L) stI.channels },
                Status.ok) := by
        simp [removeWsFromChannelChain, hk, hL]
      set stM : Manager :=
        { stI with channels := updFirst c (fun _ => erase1 ws L) stI.channels,
                   pool := poolRelease stI.pool c } with hstM
      have hstep : unsubAllLoop ws (c :: rest) stI = unsubAllLoop ws rest stM := by
        simp [unsubAllLoop, hrm, hstM]
      have hCC : ∀ c2, chainCh stM c2 = if c2 = c then erase1 ws L else chainCh stI c2 := by
        intro c2
        by_cases hc2 : c2 = c
        · subst hc2
          simp [hstM, chainCh, alookup_updFirst_self, hk]
        · simp [hstM, chainCh, hc2, alookup_updFirst_ne c c2 _ stI.channels hc2]
      have h1M : ∀ c2, cnt ws (chainCh stM c2) = cnt c2 rest := by
        intro c2
        rw [hCC c2]
        by_cases hc2 : c2 = c
        · subst hc2
          rw [if_pos rfl]
          have := h1 c2
          rw [hLc] at this
          simp [cnt] at this
          have e1 := cnt_erase1_self ws L hmem
          omega
        · rw [if_neg hc2]
          have := h1 c2
          have hcc : ¬c = c2 := fun e => hc2 e.symm
          simp [cnt, hcc] at this
          exact this
      obtain ⟨stF, hloop, hsock, hconn2, hzero, hpres, hndF, hneF, hpwF⟩ :=
        ih stM h1M (by simpa [hstM, keysOf_updFirst] using hnd)
          (by
            intro p hp
            simp [hstM] at hp
            rcases mem_updFirst_found c _ stI.channels p hp with h2 | ⟨v, hv, he⟩
            · exact hne p h2
            · rw [he]; simpa using hL)
          (by simpa [hstM] using poolRelease_wf _ c hpw)
      refine ⟨stF, by rw [hstep]; exact hloop, by simpa [hstM] using hsock,
        by simpa [hstM] using hconn2, hzero, ?_, hndF, hneF, hpwF⟩
      intro s2 hs2 c2
      rw [hpres s2 hs2 c2, hCC c2]
      by_cases hc2 : c2 = c
      · subst hc2
        rw [if_pos rfl, hLc]
        exact cnt_erase1_ne s2 ws L hs2
      · rw [if_neg hc2]

theorem unsubscribeAll_preserves (st st2 : Manager) (ws : Nat) (ret : Status)
    (hInv : Inv st) (hWF : WF st)
    (hsome : unsubscribeAll st ws = some (st2, ret)) :
    Inv st2 ∧ WF st2 := by
  obtain ⟨hnd1, hnd2, hne1, hne2, hpw⟩ := hWF
  by_cases hconn : st.subIsConnected = true
  case neg =>
    have hc2 : st.subIsConnected = false := by
      cases hb : st.subIsConnected
      · rfl
      · exact absurd hb hconn
    simp [unsubscribeAll, hc2] at hsome
    rw [← hsome.1]
    exact ⟨hInv, hnd1, hnd2, hne1, hne2, hpw⟩
  case pos =>
  cases h0 : alookup ws st.sockets with
  | none =>
    simp [unsubscribeAll, hconn, h0] at hsome
    rw [← hsome.1]
    exact ⟨hInv, hnd1, hnd2, hne1, hne2, hpw⟩
  | some W =>
    have hWc : chainWs st ws = W := by simp [chainWs, h0]
    have h1 : ∀ c2, cnt ws (chainCh st c2) = cnt c2 W := by
      intro c2
      rw [← hWc]
      exact hInv c2 ws
    obtain ⟨stF, hloop, hsock, hconn2, hzero, hpres, hndF, hneF, hpwF⟩ :=
      unsubAllLoop_spec ws W st h1 hnd1 hne1 hpw
    have hsome2 : st2 = { stF with sockets := eraseKey ws stF.sockets } ∧ ret = Status.ok := by
      simp [unsubscribeAll, hconn, h0, hloop] at hsome
      exact ⟨hsome.1.symm, hsome.2.symm⟩
    rw [hsome2.1]
    constructor
    · intro c2 s2
      by_cases hs2 : s2 = ws
      · subst hs2
        have hcw : chainWs { stF with sockets := eraseKey s2 stF.sockets } s2 = [] := by
          simp only [chainWs, hsock]
          rw [alookup_eraseKey_self_of_nodup s2 st.sockets hnd2]
          rfl
        rw [hcw]
        have hcc : chainCh { stF with sockets := eraseKey s2 stF.sockets } c2 =
            chainCh stF c2 := by simp [chainCh]
        rw [hcc, hzero c2]
        simp [cnt]
      · have hcw : chainWs { stF with sockets := eraseKey ws stF.sockets } s2 =
            chainWs st s2 := by
          simp only [chainWs, hsock]
          rw [alookup_eraseKey_ne ws s2 st.sockets hs2]
        have hcc : chainCh { stF with sockets := eraseKey ws stF.sockets } c2 =
            chainCh stF c2 := by simp [chainCh]
        rw [hcw, hcc, hpres s2 hs2 c2]
        exact hInv c2 s2
    · refine ⟨by simpa using hndF, ?_, by simpa using hneF, ?_, by simpa using hpwF⟩
      · simp only []
        exact nodup_keysOf_eraseKey ws stF.sockets (by rwa [hsock])
      · intro p hp
        simp at hp
        have hp2 : p ∈ stF.sockets := (eraseKey_sublist ws stF.sockets).mem hp
        rw [hsock] at hp2
        exact hne2 p hp2

/-! ### All reachable manager states are consistent and well formed -/

theorem reachable_inv_wf (st : Manager) (h : Reachable st) : Inv st ∧ WF st := by
  induction h with
  | init b =>
    constructor
    · intro c s; rfl
    · exact ⟨List.nodup_nil, List.nodup_nil, by simp [mkMgr], by simp [mkMgr], by simp [mkMgr]⟩
  | setConn b _ ih =>
    obtain ⟨hInv, hnd1, hnd2, hne1, hne2, hpw⟩ := ih
    exact ⟨hInv, hnd1, hnd2, hne1, hne2, hpw⟩
  | commit ws c _ ih =>
    exact ⟨commit_Inv _ ws c ih.1, commit_WF _ ws c ih.2⟩
  | subscribeStep c ws _ ih =>
    rename_i st0 _
    obtain ⟨hInv, hWF⟩ := ih
    by_cases hconn : st0.subIsConnected = true
    · by_cases hmem : c ∈ chainWs st0 ws
      · rw [subscribe_already_registered st0 c ws hconn hWF.2.2.2.2 hmem]
        exact ⟨hInv, hWF⟩
      · rw [subscribe_fresh st0 c ws hconn hWF.2.2.2.2 hmem]
        exact ⟨hInv, hWF.1, hWF.2.1, hWF.2.2.1, hWF.2.2.2.1, hWF.2.2.2.2⟩
    · have hc2 : st0.subIsConnected = false := by
        cases hb : st0.subIsConnected
        · rfl
        · exact absurd hb hconn
      simp [subscribe, hc2]
      exact ⟨hInv, hWF⟩
  | unsubscribeStep c ws _ heq ih =>
    rename_i st0 st2 ret _
    exact unsubscribe_preserves st0 st2 c ws ret ih.1 ih.2 heq
  | unsubscribeAllStep ws _ heq ih =>
    rename_i st0 st2 ret _
    exact unsubscribeAll_preserves st0 st2 ws ret ih.1 ih.2 heq

theorem unsubscribe_unknown_socket_state (st : Manager) (c : String) (ws : Nat)
    (hconn : st.subIsConnected = true) (hpw : PoolWF st.pool)
    (hws : alookup ws st.sockets = none) :
    unsubscribe st c ws = some (st, Status.ok) := by
  have hpr := poolRelease_poolGet st.pool c hpw
  simp [unsubscribe, hconn, hws, hpr, mgr_eta_conn st true hconn]

/-! ## Claim theorems for the fan-out table -/

/-- C1: for every sequence of fan-out table operations (subscribe-reply
commits, unsubscribe, unsubscribe_all) starting from the empty manager, and
for every channel C and socket S, C is in socket_buckets[S] iff S is in
channel_buckets[C]: the two hashtables are mutually consistent after every
public operation and after every cascading cleanup. -/
theorem fanout_tables_mutually_consistent (st : Manager) (h : Reachable st) :
    ∀ (c : String) (s : Nat), c ∈ chainWs st s ↔ s ∈ chainCh st c := by
  intro c s
  have hInv := (reachable_inv_wf st h).1
  rw [← cnt_pos_iff_mem, ← cnt_pos_iff_mem, hInv c s]

/-- Witness for C1 at a concrete reachable state. -/
theorem fanout_tables_mutually_consistent_witness :
    "room" ∈ chainWs (commitSubscribe (mkMgr true) 7 "room") 7 ↔
      7 ∈ chainCh (commitSubscribe (mkMgr true) 7 "room") "room" :=
  fanout_tables_mutually_consistent _
    (Reachable.commit 7 "room" (Reachable.init true)) "room" 7

/-- C2: once a subscribe(C,S) has committed (its Redis `subscribe` reply was
processed), every further subscribe(C,S) returns Ok without changing the
manager at all (tables, pool and command log untouched, so no second Redis
SUBSCRIBE); and over the whole two-subscribe sequence exactly one
`SUBSCRIBE room` is issued and each table holds exactly one (room, S)
entry. -/
theorem subscribe_idempotent_after_commit :
    (∀ (st : Manager) (c : String) (ws : Nat),
        st.subIsConnected = true → PoolWF st.pool → c ∈ chainWs st ws →
        subscribe st c ws = (st, Status.ok)) ∧
    ((subscribe (commitSubscribe ((subscribe (mkMgr true) "room" 7).1) 7 "room")
        "room" 7).1 =
      commitSubscribe ((subscribe (mkMgr true) "room" 7).1) 7 "room" ∧
     (commitSubscribe ((subscribe (mkMgr true) "room" 7).1) 7 "room").cmds =
       [RedisCmd.sub "room"] ∧
     chainCh (commitSubscribe ((subscribe (mkMgr true) "room" 7).1) 7 "room") "room" =
       [7] ∧
     chainWs (commitSubscribe ((subscribe (mkMgr true) "room" 7).1) 7 "room") 7 =
       ["room"]) := by
  constructor
  · intro st c ws hconn hpw hmem
    exact subscribe_already_registered st c ws hconn hpw hmem
  · refine ⟨?_, by decide, by decide, by decide⟩
    decide

/-- Witness for C2's universally quantified part at a concrete state. -/
theorem subscribe_idempotent_after_commit_witness :
    subscribe (commitSubscribe (mkMgr true) 7 "room") "room" 7 =
      (commitSubscribe (mkMgr true) 7 "room", Status.ok) :=
  subscribe_idempotent_after_commit.1 (commitSubscribe (mkMgr true) 7 "room")
    "room" 7 (by decide) (by decide) (by decide)

/-- C3: on a consistent, well-formed manager, unsubscribe(C,S) issues the
Redis command UNSUBSCRIBE C exactly when removing S leaves channel C's
bucket empty (and then the bucket is dropped); while other sockets remain
subscribed to C, no UNSUBSCRIBE is issued. -/
theorem unsubscribe_issues_unsub_iff_last_subscriber
    (st st2 : Manager) (ret : Status) (c : String) (ws : Nat)
    (hInv : Inv st) (hWF : WF st)
    (hconn : st.subIsConnected = true)
    (hsome : unsubscribe st c ws = some (st2, ret)) :
    (st2.cmds = st.cmds ++ [RedisCmd.unsub c] ↔
       chainCh st c ≠ [] ∧ erase1 ws (chainCh st c) = []) ∧
    (¬(chainCh st c ≠ [] ∧ erase1 ws (chainCh st c) = []) → st2.cmds = st.cmds) ∧
    ((chainCh st c ≠ [] ∧ erase1 ws (chainCh st c) = []) →
       alookup c st2.channels = none) := by
  obtain ⟨hnd1, hnd2, hne1, hne2, hpw⟩ := hWF
  cases h0 : alookup ws st.sockets with
  | none =>
    rw [unsubscribe_unknown_socket_state st c ws hconn hpw h0] at hsome
    rw [Option.some_inj, Prod.mk.injEq] at hsome
    rw [← hsome.1]
    -- the socket has no chain, so by consistency it is in no channel chain
    have hcnt : cnt ws (chainCh st c) = 0 := by
      rw [hInv c ws]
      simp [chainWs, h0, cnt]
    have hnm : ws ∉ chainCh st c := by
      intro hm
      rw [← cnt_pos_iff_mem] at hm
      omega
    have her : erase1 ws (chainCh st c) = chainCh st c :=
      erase1_of_not_mem ws _ hnm
    refine ⟨?_, fun _ => rfl, ?_⟩
    · constructor
      · intro he
        exact absurd (congrArg List.length he) (by simp)
      · rintro ⟨hne, hempty⟩
        rw [her] at hempty
        exact absurd hempty hne
    · rintro ⟨hne, hempty⟩
      rw [her] at hempty
      exact absurd hempty hne
  | some W =>
    cases h1 : alookup c st.channels with
    | none =>
      simp [unsubscribe, hconn, h0, removeWsFromChannelChain, h1] at hsome
    | some L =>
      rw [unsubscribe_char st c ws hconn W h0 L h1] at hsome
      rw [Option.some_inj, Prod.mk.injEq] at hsome
      rw [← hsome.1]
      have hLc : chainCh st c = L := by simp [chainCh, h1]
      have hLne : L ≠ [] := hne1 (c, L) (alookup_mem c st.channels L h1)
      by_cases hL : erase1 ws L = []
      case pos =>
        refine ⟨?_, ?_, ?_⟩
        · simp only [hL, if_pos]
          constructor
          · intro _
            rw [hLc]
            exact ⟨hLne, hL⟩
          · intro _
            simp
        · intro hcon
          rw [hLc] at hcon
          exact absurd ⟨hLne, hL⟩ hcon
        · intro _
          simp only [hL, if_pos]
          exact alookup_eraseKey_self_of_nodup c st.channels hnd1
      case neg =>
        refine ⟨?_, ?_, ?_⟩
        · simp only [hL, if_neg]
          constructor
          · intro he
            exact absurd (congrArg List.length he) (by simp)
          · rintro ⟨_, hempty⟩
            rw [hLc] at hempty
            exact absurd hempty hL
        · intro _
          simp [hL]
        · rintro ⟨_, hempty⟩
          rw [hLc] at hempty
          exact absurd hempty hL

/-- Witness for C3 at a concrete one-subscriber state. -/
theorem unsubscribe_issues_unsub_iff_last_subscriber_witness :
    (({ subIsConnected := true, channels := [], sockets := [], pool := [],
        cmds := [RedisCmd.unsub "a"] } : Manager).cmds =
        (commitSubscribe (mkMgr true) 7 "a").cmds ++ [RedisCmd.unsub "a"] ↔
      chainCh (commitSubscribe (mkMgr true) 7 "a") "a" ≠ [] ∧
        erase1 7 (chainCh (commitSubscribe (mkMgr true) 7 "a") "a") = []) :=
  (unsubscribe_issues_unsub_iff_last_subscriber
    (commitSubscribe (mkMgr true) 7 "a")
    { subIsConnected := true, channels := [], sockets := [], pool := [],
      cmds := [RedisCmd.unsub "a"] }
    Status.ok "a" 7
    (reachable_inv_wf _ (Reachable.commit 7 "a" (Reachable.init true))).1
    (reachable_inv_wf _ (Reachable.commit 7 "a" (Reachable.init true))).2
    (by decide) (by decide)).1

/-- C10: unsubscribing a channel for a socket with no live subscriptions on a
connected manager returns Ok and leaves the whole manager unchanged (both
hashtables, the pool's live entries, and the command log): the canonical
reference acquired for the channel is released before returning. -/
theorem unsubscribe_unknown_socket_is_noop (st : Manager) (c : String) (ws : Nat)
    (hconn : st.subIsConnected = true) (hpw : PoolWF st.pool)
    (hws : alookup ws st.sockets = none) :
    unsubscribe st c ws = some (st, Status.ok) :=
  unsubscribe_unknown_socket_state st c ws hconn hpw hws

/-- Witness for C10 on the fresh connected manager. -/
theorem unsubscribe_unknown_socket_is_noop_witness :
    unsubscribe (mkMgr true) "chan" 3 = some (mkMgr true, Status.ok) :=
  unsubscribe_unknown_socket_is_noop (mkMgr true) "chan" 3 (by decide)
    (by decide) (by decide)

/-! ## The WebSocket frame engine (`websocket.c`)

Bytes are naturals below 256.  The engine state mirrors `struct websocket`:
the reader state, the frame fields being accumulated, the per-frame and
per-message buffers, and the output side (frames written by `send_frame`).
The message callback is modelled by appending the current message buffer
(exactly what `in_message_cb` reads) to `delivered`. -/

inductive WState : Type
  | closed
  | needsHttpUpgrade
  | needsInitial
  | needsLength16
  | needsLength64
  | needsMaskingKey
  | needsPayload
  deriving DecidableEq, Repr

structure WSEngine : Type where
  inState : WState
  frameIsFinal : Bool
  frameOpcode : Nat
  messageIsBinary : Bool
  messageIsContinuing : Bool
  maskingKey : List Nat
  frameNbytes : Nat
  frameBuffer : List Nat
  messageBuffer : List Nat
  sentFrames : List (Nat × List Nat)
  delivered : List (Bool × List Nat)
  pingCount : Nat
  deriving DecidableEq, Repr

/-- 16 MiB, the reader's maximum declared payload length. -/
def MAX_PAYLOAD_LENGTH : Nat := 16 * 1024 * 1024

/-- The engine right after a successful HTTP upgrade (`websocket_init` zeroes
everything; `websocket_accept_http_request` then sets `WS_NEEDS_INITIAL`). -/
def initWS : WSEngine :=
  { inState := WState.needsInitial, frameIsFinal := false, frameOpcode := 0,
    messageIsBinary := false, messageIsContinuing := false, maskingKey := [],
    frameNbytes := 0, frameBuffer := [], messageBuffer := [], sentFrames := [],
    delivered := [], pingCount := 0 }

/-- XOR a byte stream against the 4-byte masking key with index i mod 4,
starting at offset `i`: the C loop XORs aligned quads, which is byte-wise
identical. -/
def unmaskFrom (key : List Nat) : Nat → List Nat → List Nat
  | _, [] => []
  | i, b :: rest => (b ^^^ key.getD (i % 4) 0) :: unmaskFrom key (i + 1) rest

/-- `consume_needs_initial`: decode FIN, RSV, opcode, MASK and the 7-bit
length from the 2-byte header; any RSV bit or a missing MASK closes; length
sentinels 126/127 select the extended-length states; a close opcode enters
`Closed` immediately, before any further bytes are consumed. -/
def consumeNeedsInitial (ws : WSEngine) (bytes : List Nat) : WSEngine :=
  let b0 := bytes.getD 0 0
  let b1 := bytes.getD 1 0
  let fin := (b0 >>> 7) &&& 1 = 1
  let reserved := (b0 >>> 4) &&& 7
  let opcode := b0 &&& 15
  let masked := (b1 >>> 7) &&& 1 = 1
  let len := b1 &&& 127
  let ws1 := { ws with frameIsFinal := fin, frameOpcode := opcode,
                       frameNbytes := len }
  if reserved ≠ 0 then { ws1 with inState := WState.closed }
  else if ¬masked then { ws1 with inState := WState.closed }
  else
    let ws2 :=
      if len = 126 then { ws1 with inState := WState.needsLength16 }
      else if len = 127 then { ws1 with inState := WState.needsLength64 }
      else { ws1 with inState := WState.needsMaskingKey }
    if opcode = 8 then { ws2 with inState := WState.closed } else ws2

/-- `consume_needs_length_16`: big-endian 16-bit extended length. -/
def consumeNeedsLength16 (ws : WSEngine) (bytes : List Nat) : WSEngine :=
  let n := (bytes.getD 0 0) * 256 + bytes.getD 1 0
  if n > MAX_PAYLOAD_LENGTH then { ws with frameNbytes := n, inState := WState.closed }
  else { ws with frameNbytes := n, inState := WState.needsMaskingKey }

/-- `consume_needs_length_64`: big-endian 64-bit extended length. -/
def consumeNeedsLength64 (ws : WSEngine) (bytes : List Nat) : WSEngine :=
  let n := bytes.foldl (fun acc b => acc * 256 + b) 0
  if n > MAX_PAYLOAD_LENGTH then { ws with frameNbytes := n, inState := WState.closed }
  else { ws with frameNbytes := n, inState := WState.needsMaskingKey }

/-- `consume_needs_masking_key`: store the 4 key bytes in network order. -/
def consumeNeedsMaskingKey (ws : WSEngine) (bytes : List Nat) : WSEngine :=
  { ws with maskingKey := bytes, inState := WState.needsPayload }

/-- `consume_needs_payload`: unmask the payload into the (drained) frame
buffer, then dispatch on the opcode exactly as the C switch does.  Note the
two data opcodes: the TEXT final branch moves the frame buffer onto the end of
the message buffer before firing the callback, while the BINARY final branch
moves the message buffer into the frame buffer
(`evbuffer_add_buffer(ws->in_frame_buffer, ws->in_message_buffer)`), so the
callback observes the message buffer as left by that move. -/
def consumeNeedsPayload (ws : WSEngine) (bytes : List Nat) : WSEngine :=
  let ws1 := { ws with frameBuffer := unmaskFrom ws.maskingKey 0 bytes }
  if ws1.frameOpcode = 0 then
    if ¬ws1.messageIsContinuing then { ws1 with inState := WState.closed }
    else
      let ws2 := { ws1 with messageBuffer := ws1.messageBuffer ++ ws1.frameBuffer,
                            frameBuffer := [] }
      if ws2.frameIsFinal then
        { ws2 with messageIsContinuing := false,
                   delivered := ws2.delivered ++ [(ws2.messageIsBinary, ws2.messageBuffer)],
                   messageBuffer := [], inState := WState.needsInitial }
      else { ws2 with inState := WState.needsInitial }
  else if ws1.frameOpcode = 1 then
    let ws2 := { ws1 with messageIsBinary := false }
    if ws2.frameIsFinal then
      let ws3 := { ws2 with messageIsContinuing := false,
                            messageBuffer := ws2.messageBuffer ++ ws2.frameBuffer,
                            frameBuffer := [] }
      { ws3 with delivered := ws3.delivered ++ [(ws3.messageIsBinary, ws3.messageBuffer)],
                 messageBuffer := [], inState := WState.needsInitial }
    else
      { ws2 with messageIsContinuing := true,
                 messageBuffer := ws2.messageBuffer ++ ws2.frameBuffer,
                 frameBuffer := [], inState := WState.needsInitial }
  else if ws1.frameOpcode = 2 then
    let ws2 := { ws1 with messageIsBinary := true }
    if ws2.frameIsFinal then
      let ws3 := { ws2 with messageIsContinuing := false,
                            frameBuffer := ws2.frameBuffer ++ ws2.messageBuffer,
                            messageBuffer := [] }
      { ws3 with delivered := ws3.delivered ++ [(ws3.messageIsBinary, ws3.messageBuffer)],
                 messageBuffer := [], inState := WState.needsInitial }
    else
      { ws2 with messageIsContinuing := true,
                 messageBuffer := ws2.messageBuffer ++ ws2.frameBuffer,
                 frameBuffer := [], inState := WState.needsInitial }
  else if ws1.frameOpcode = 8 then { ws1 with inState := WState.closed }
  else if ws1.frameOpcode = 9 then
    { ws1 with sentFrames := ws1.sentFrames ++ [(10, ws1.frameBuffer)],
               frameBuffer := [], inState := WState.needsInitial }
  else if ws1.frameOpcode = 10 then { ws1 with inState := WState.needsInitial }
  else { ws1 with inState := WState.closed }

/-- `websocket_consume`: dispatch one exact-watermark slice by reader state;
an unexpected state closes the connection. -/
def websocketConsume (ws : WSEngine) (bytes : List Nat) : WSEngine :=
  match ws.inState with
  | WState.needsInitial => consumeNeedsInitial ws bytes
  | WState.needsLength16 => consumeNeedsLength16 ws bytes
  | WState.needsLength64 => consumeNeedsLength64 ws bytes
  | WState.needsMaskingKey => consumeNeedsMaskingKey ws bytes
  | WState.needsPayload => consumeNeedsPayload ws bytes
  | _ => { ws with inState := WState.closed }

/-- The read watermark the engine arms for the next state transition; `none`
when the engine requests no further bytes (closed or pre-upgrade). -/
def wsWatermark (ws : WSEngine) : Option Nat :=
  match ws.inState with
  | WState.needsInitial => some 2
  | WState.needsLength16 => some 2
  | WState.needsLength64 => some 8
  | WState.needsMaskingKey => some 4
  | WState.needsPayload => some ws.frameNbytes
  | _ => none

/-- Drive the engine over a byte stream, handing it exact-watermark slices,
as the buffered transport does. -/
def wsFeed : Nat → WSEngine → List Nat → WSEngine
  | 0, ws, _ => ws
  | fuel + 1, ws, bytes =>
    match wsWatermark ws with
    | none => ws
    | some n =>
      if bytes.length < n then ws
      else wsFeed fuel (websocketConsume ws (bytes.take n)) (bytes.drop n)

/-- 8-byte big-endian encoding (`htobe64`). -/
def be64 (n : Nat) : List Nat :=
  [(n >>> 56) % 256, (n >>> 48) % 256, (n >>> 40) % 256, (n >>> 32) % 256,
   (n >>> 24) % 256, (n >>> 16) % 256, (n >>> 8) % 256, n % 256]

/-- `send_frame`: one FIN=1 prefix byte with the opcode in the low nibble,
the 7-bit length byte or a 126/127 sentinel plus big-endian extended length,
then the unmasked payload. -/
def sendFrameBytes (opcode : Nat) (payload : List Nat) : List Nat :=
  let n := payload.length
  if n > 65535 then (128 ||| opcode) :: 127 :: (be64 n ++ payload)
  else if n > 125 then (128 ||| opcode) :: 126 :: ((n >>> 8) % 256 :: n % 256 :: payload)
  else (128 ||| opcode) :: n :: payload

/-- Mask a server-written frame as a client would before sending it back:
set the MASK bit, insert the 4-byte key after the length bytes, and XOR the
payload against the key (this is the claim's client-side transformation, not
repository code). -/
def maskAsClient (key : List Nat) : List Nat → List Nat
  | b0 :: b1 :: rest =>
    let extra := if b1 = 126 then 2 else if b1 = 127 then 8 else 0
    b0 :: (b1 ||| 128) ::
      (rest.take extra ++ key ++ unmaskFrom key 0 (rest.drop extra))
  | l => l

/-! ## Claim theorems for the frame engine -/

/-- C4 (evaluation at the failing input): a single unfragmented BINARY
message of one byte, written with the frame writer and masked as a client
would, is parsed by the frame reader but delivered to the message callback
as an EMPTY message — the binary final branch moves the message buffer into
the frame buffer instead of the reverse — so parse(encode(m)) ≠ m; the same
round trip with a TEXT frame delivers the payload intact. -/
theorem binary_roundtrip_delivers_empty_message :
    (wsFeed 4 initWS (maskAsClient [1, 2, 3, 4] (sendFrameBytes 2 [170]))).delivered =
      [(true, [])] ∧
    [((true : Bool), ([] : List Nat))] ≠ [(true, [170])] ∧
    (wsFeed 4 initWS (maskAsClient [1, 2, 3, 4] (sendFrameBytes 1 [170]))).delivered =
      [(false, [170])] := by
  refine ⟨by decide, by decide, by decide⟩

/-- C5 (evaluation at the failing input): with an unfinished fragmented text
message pending (`message_is_continuing = true` after a non-final TEXT
frame), consuming a frame whose opcode is text (0x1) does NOT close the
connection: the reader returns to `NeedsInitial` and delivers the two
payloads merged into one message. -/
theorem text_frame_while_continuing_does_not_close :
    (wsFeed 4 initWS [1, 129, 0, 0, 0, 0, 65]).messageIsContinuing = true ∧
    (wsFeed 4 initWS [1, 129, 0, 0, 0, 0, 65]).inState = WState.needsInitial ∧
    (wsFeed 4 (wsFeed 4 initWS [1, 129, 0, 0, 0, 0, 65])
        [129, 129, 0, 0, 0, 0, 66]).inState = WState.needsInitial ∧
    (wsFeed 4 (wsFeed 4 initWS [1, 129, 0, 0, 0, 0, 65])
        [129, 129, 0, 0, 0, 0, 66]).inState ≠ WState.closed ∧
    (wsFeed 4 (wsFeed 4 initWS [1, 129, 0, 0, 0, 0, 65])
        [129, 129, 0, 0, 0, 0, 66]).delivered = [(false, [65, 66])] := by
  refine ⟨by decide, by decide, by decide, by decide, by decide⟩

/-- C9: from `NeedsInitial`, any 2-byte frame header whose opcode nibble is
0x8 (close) drives the engine into `Closed` immediately: the resulting state
requests no further bytes, so the declared payload length, masking key and
payload of the close frame are never consumed. -/
theorem close_opcode_closes_at_header (st : WSEngine) (b0 b1 : Nat)
    (hstate : st.inState = WState.needsInitial) (hop : b0 &&& 15 = 8) :
    (websocketConsume st [b0, b1]).inState = WState.closed ∧
    wsWatermark (websocketConsume st [b0, b1]) = none := by
  have h : websocketConsume st [b0, b1] = consumeNeedsInitial st [b0, b1] := by
    simp [websocketConsume, hstate]
  rw [h]
  simp only [consumeNeedsInitial, List.getD_cons_zero, List.getD_cons_succ, hop]
  split_ifs <;> simp [wsWatermark]

/-- Witness for C9: a `88 00` header (FIN close frame announcing a payload)
closes at once. -/
theorem close_opcode_closes_at_header_witness :
    (websocketConsume initWS [136, 0]).inState = WState.closed ∧
    wsWatermark (websocketConsume initWS [136, 0]) = none :=
  close_opcode_closes_at_header initWS 136 0 rfl (by decide)

/-! ## The byte lexer's `lexer_consume_uint32` (`lexer.c`)

The lexer borrows a byte range; we model the remaining bytes as a list of
naturals below 256.  The C accumulator is a `uint32_t` updated by
`num = (10 * num) + (c - '0')`, i.e. wrapping arithmetic modulo 2^32. -/

/-- `isdigit` on an ASCII byte. -/
def isDigitByte (c : Nat) : Bool := 48 ≤ c && c ≤ 57

/-- The digit-consuming loop of `lexer_consume_uint32`: consume digits while
they last, updating the 32-bit accumulator with C unsigned wrap-around. -/
def consumeDigitsLoop (num : Nat) : List Nat → Nat × List Nat
  | [] => (num, [])
  | c :: rest =>
    if isDigitByte c then
      consumeDigitsLoop ((10 * num + (c - 48)) % 4294967296) rest
    else (num, c :: rest)

/-- `lexer_consume_uint32`: fails (restoring the lexer) when the input does
not start with a digit; otherwise consumes the maximal digit prefix and
returns the accumulated 32-bit value and the rest of the input. -/
def lexerConsumeUint32 : List Nat → Option (Nat × List Nat)
  | [] => none
  | c :: rest =>
    if isDigitByte c then
      some (consumeDigitsLoop ((10 * 0 + (c - 48)) % 4294967296) rest)
    else none

/-- The mathematical decimal value a digit string denotes. -/
def decimalValue (ds : List Nat) : Nat := ds.foldl (fun a c => 10 * a + (c - 48)) 0

theorem consumeDigitsLoop_append (rest : List Nat)
    (hrest : ∀ c, rest.head? = some c → isDigitByte c = false) :
    ∀ (ds : List Nat), (∀ c ∈ ds, isDigitByte c = true) → ∀ (num : Nat),
    consumeDigitsLoop num (ds ++ rest) =
      (ds.foldl (fun a c => (10 * a + (c - 48)) % 4294967296) num, rest) := by
  intro ds
  induction ds with
  | nil =>
    intro _ num
    cases rest with
    | nil => rfl
    | cons c rest2 =>
      have hnd : isDigitByte c = false := hrest c rfl
      simp [consumeDigitsLoop, hnd]
  | cons c ds2 ih =>
    intro hds num
    have hdc : isDigitByte c = true := hds c (List.mem_cons_self c ds2)
    simp only [List.cons_append, consumeDigitsLoop, hdc, if_pos, List.foldl_cons]
    exact ih (fun x hx => hds x (List.mem_cons_of_mem c hx)) _

theorem foldl_mod_step (ds : List Nat) :
    ∀ (n : Nat),
    ds.foldl (fun a c => (10 * a + (c - 48)) % 4294967296) (n % 4294967296) =
      (ds.foldl (fun a c => 10 * a + (c - 48)) n) % 4294967296 := by
  induction ds with
  | nil => intro n; simp
  | cons c ds2 ih =>
    intro n
    simp only [List.foldl_cons]
    have e1 : (10 * (n % 4294967296) + (c - 48)) % 4294967296 =
        (10 * n + (c - 48)) % 4294967296 := by omega
    rw [e1, ← ih (10 * n + (c - 48))]

/-- C8 counterexample: the digits of 4294967296 (= 2^32) are consumed to the
wrapped value 0 with nothing left over, not to the saturated u32 maximum
4294967295 the claim asserts. -/
theorem consume_uint32_counterexample :
    lexerConsumeUint32 [52, 50, 57, 52, 57, 54, 55, 50, 57, 54] = some (0, []) ∧
    decimalValue [52, 50, 57, 52, 57, 54, 55, 50, 57, 54] = 4294967296 ∧
    (0 : Nat) ≠ 4294967295 := by
  refine ⟨by decide, by decide, by decide⟩

/-- C8 (amended): for every input beginning with one or more ASCII decimal
digits, `lexer_consume_uint32` consumes the maximal digit prefix and yields
its decimal value reduced modulo 2^32 — wrapping on overflow, not saturating
at `u32::MAX`. -/
theorem consume_uint32_consumes_digits_mod_2_32 (ds rest : List Nat)
    (hne : ds ≠ []) (hds : ∀ c ∈ ds, isDigitByte c = true)
    (hrest : ∀ c, rest.head? = some c → isDigitByte c = false) :
    lexerConsumeUint32 (ds ++ rest) = some (decimalValue ds % 4294967296, rest) := by
  cases ds with
  | nil => exact absurd rfl hne
  | cons c ds2 =>
    have hdc : isDigitByte c = true := hds c (List.mem_cons_self c ds2)
    simp only [List.cons_append, lexerConsumeUint32, hdc, if_pos]
    rw [consumeDigitsLoop_append rest hrest ds2
      (fun x hx => hds x (List.mem_cons_of_mem c hx))]
    rw [Nat.mul_comm 10 0]
    simp only [Nat.zero_mul, Nat.zero_add]
    rw [foldl_mod_step ds2 (c - 48)]
    simp [decimalValue]

/-- Witness for the amended C8 at the input "57 " (digits then a space). -/
theorem consume_uint32_consumes_digits_mod_2_32_witness :
    lexerConsumeUint32 [53, 55, 32] =
      some (decimalValue [53, 55] % 4294967296, [32]) :=
  consume_uint32_consumes_digits_mod_2_32 [53, 55] [32] (by decide)
    (by decide) (by decide)

/-! ## HTTP headers (`src/http.c`, refactored version)

`http_header_add` copies name and value, replaces the value of the first
header whose stored name matches case-insensitively (`strcasecmp`), and
otherwise links a new header at the head of the list.
`http_request_find_header` / the shared lookup returns the first header whose
name matches case-insensitively. -/

structure HttpHeader : Type where
  name : String
  value : String
  deriving DecidableEq, Repr

/-- C locale `tolower` on an ASCII character. -/
def asciiLower (c : Char) : Char :=
  if 65 ≤ c.toNat ∧ c.toNat ≤ 90 then Char.ofNat (c.toNat + 32) else c

/-- The character sequence `strcasecmp` compares. -/
def lowerStr (s : String) : List Char := s.data.map asciiLower

/-- `strcasecmp(a, b) == 0`. -/
def strCaseEq (a b : String) : Bool := lowerStr a == lowerStr b

theorem strCaseEq_iff (a b : String) :
    strCaseEq a b = true ↔ lowerStr a = lowerStr b := by
  simp [strCaseEq]

/-- The replace-in-place half of `http_header_add`: rewrite the value of the
first case-insensitive match, keeping its stored name. -/
def replaceFirstHeader (n v : String) : List HttpHeader → Option (List HttpHeader)
  | [] => none
  | h :: rest =>
    if strCaseEq h.name n then some ({ h with value := v } :: rest)
    else (replaceFirstHeader n v rest).map (fun l => h :: l)

/-- `http_header_add`: last-write-wins on a case-insensitive match, else the
new header is linked at the head. -/
def addHeader (hs : List HttpHeader) (n v : String) : List HttpHeader :=
  match replaceFirstHeader n v hs with
  | some hs2 => hs2
  | none => { name := n, value := v } :: hs

/-- `http_request_find_header`: first case-insensitive match. -/
def findHeader : List HttpHeader → String → Option HttpHeader
  | [], _ => none
  | h :: rest, n => if strCaseEq h.name n then some h else findHeader rest n

/-- C7: header lookup is case-insensitive: after adding a header under name
N, looking it up under any name M that equals N up to ASCII case returns
that header's value. -/
theorem header_lookup_case_insensitive (hs : List HttpHeader) (n v m : String)
    (h : lowerStr m = lowerStr n) :
    ∃ hdr, findHeader (addHeader hs n v) m = some hdr ∧ hdr.value = v := by
  induction hs with
  | nil =>
    have he : strCaseEq n m = true := by
      rw [strCaseEq_iff]
      exact h.symm
    exact ⟨{ name := n, value := v }, by simp [addHeader, replaceFirstHeader, findHeader, he], rfl⟩
  | cons h0 rest ih =>
    by_cases hx : strCaseEq h0.name n = true
    · have hxm : strCaseEq h0.name m = true := by
        rw [strCaseEq_iff] at hx ⊢
        rw [hx, h]
      refine ⟨{ h0 with value := v }, ?_, rfl⟩
      simp [addHeader, replaceFirstHeader, hx, findHeader, hxm]
    · have hxm : ¬strCaseEq h0.name m = true := by
        intro hc
        rw [strCaseEq_iff] at hc
        rw [h] at hc
        rw [← strCaseEq_iff] at hc
        exact hx hc
      cases hrep : replaceFirstHeader n v rest with
      | some hs2 =>
        have harest : addHeader rest n v = hs2 := by simp [addHeader, hrep]
        obtain ⟨hdr, hfind, hval⟩ := ih
        rw [harest] at hfind
        refine ⟨hdr, ?_, hval⟩
        simp [addHeader, replaceFirstHeader, hx, hrep, findHeader, hxm]
        exact hfind
      | none =>
        have he : strCaseEq n m = true := by
          rw [strCaseEq_iff]
          exact h.symm
        refine ⟨{ name := n, value := v }, ?_, rfl⟩
        simp [addHeader, replaceFirstHeader, hx, hrep, findHeader, he]

/-- Witness for C7: "Upgrade" added, "UPGRADE" looked up. -/
theorem header_lookup_case_insensitive_witness :
    ∃ hdr, findHeader (addHeader [] "Upgrade" "websocket") "UPGRADE" = some hdr ∧
      hdr.value = "websocket" :=
  header_lookup_case_insensitive [] "Upgrade" "websocket" "UPGRADE" (by decide)

/-! ## The WebSocket opening handshake (`websocket.c`, `base64.c`)

The SHA-1 hash itself is an external primitive (OpenSSL `SHA1`), not code of
this repository; it is modelled from the spec below.  Base64 encoding, the
HTTP response writer and the handshake driver are embedded from the
repository sources. -/

/-- 32-bit left rotation. -/
def rotl32 (n x : Nat) : Nat := ((x <<< n) ||| (x >>> (32 - n))) % 4294967296

/-- Modelled from the spec: the per-round constants of the SHA-1 primitive
(OpenSSL `SHA1`, external to the repository), per RFC 3174. -/
def sha1K (t : Nat) : Nat :=
  if t < 20 then 1518500249
  else if t < 40 then 1859775393
  else if t < 60 then 2400959708
  else 3395469782

/-- Modelled from the spec: the per-round mixing functions of SHA-1. -/
def sha1F (t b c d : Nat) : Nat :=
  if t < 20 then (b &&& c) ||| ((4294967295 ^^^ b) &&& d)
  else if t < 40 then b ^^^ c ^^^ d
  else if t < 60 then (b &&& c) ||| (b &&& d) ||| (c &&& d)
  else b ^^^ c ^^^ d

/-- Modelled from the spec: SHA-1 message padding (append 0x80, zero-fill to
56 mod 64, then the 64-bit big-endian bit length). -/
def sha1Pad (msg : List Nat) : List Nat :=
  let L := msg.length
  let z := (119 - L % 64) % 64
  msg ++ [128] ++ List.replicate z 0 ++ be64 (8 * L)

/-- Split into 64-byte blocks (fuel-driven). -/
def chunk64 : Nat → List Nat → List (List Nat)
  | 0, _ => []
  | _, [] => []
  | fuel + 1, l => l.take 64 :: chunk64 fuel (l.drop 64)

/-- Big-endian 32-bit words of a block. -/
def wordsOf : List Nat → List Nat
  | b0 :: b1 :: b2 :: b3 :: rest =>
    (((b0 * 256 + b1) * 256 + b2) * 256 + b3) :: wordsOf rest
  | _ => []

/-- Modelled from the spec: extend the 16 block words to the 80-entry SHA-1
message schedule. -/
def sha1Extend : Nat → List Nat → List Nat
  | 0, w => w
  | n + 1, w =>
    sha1Extend n (w ++ [rotl32 1 ((w.getD (w.length - 3) 0) ^^^ (w.getD (w.length - 8) 0) ^^^
      (w.getD (w.length - 14) 0) ^^^ (w.getD (w.length - 16) 0))])

/-- Modelled from the spec: the 80 compression rounds of one SHA-1 block. -/
def sha1Rounds : Nat → List Nat → Nat × Nat × Nat × Nat × Nat → Nat × Nat × Nat × Nat × Nat
  | _, [], st => st
  | t, w :: ws, (a, b, c, d, e) =>
    sha1Rounds (t + 1) ws
      ((rotl32 5 a + sha1F t b c d + e + w + sha1K t) % 4294967296, a, rotl32 30 b, c, d)

/-- Modelled from the spec: one SHA-1 block step. -/
def sha1Block (h : Nat × Nat × Nat × Nat × Nat) (block : List Nat) :
    Nat × Nat × Nat × Nat × Nat :=
  let w := sha1Extend 64 (wordsOf block)
  match sha1Rounds 0 w h with
  | (a, b, c, d, e) =>
    ((h.1 + a) % 4294967296, (h.2.1 + b) % 4294967296, (h.2.2.1 + c) % 4294967296,
     (h.2.2.2.1 + d) % 4294967296, (h.2.2.2.2 + e) % 4294967296)

/-- Big-endian bytes of a 32-bit word. -/
def be32 (n : Nat) : List Nat :=
  [(n >>> 24) % 256, (n >>> 16) % 256, (n >>> 8) % 256, n % 256]

/-- Modelled from the spec: the SHA-1 primitive used by the handshake
(OpenSSL `SHA1`, external to this repository), per RFC 3174: 20 digest
bytes of the padded, block-compressed message. -/
def sha1 (msg : List Nat) : List Nat :=
  let blocks := chunk64 (msg.length / 64 + 2) (sha1Pad msg)
  match blocks.foldl sha1Block
      (1732584193, 4023233417, 2562383102, 271733878, 3285377520) with
  | (h0, h1, h2, h3, h4) => be32 h0 ++ be32 h1 ++ be32 h2 ++ be32 h3 ++ be32 h4

/-- The base64 alphabet of `base64.c`. -/
def b64Char (i : Nat) : Char :=
  "ABCDEFGHIJKLMNOPQRSTUVWXYZabcdefghijklmnopqrstuvwxyz0123456789+/".data.getD i 'A'

/-- `base64_encode` (`base64.c`): encode byte triples, padding the final
group with one or two `=` characters. -/
def base64encodeBytes : List Nat → List Char
  | [] => []
  | [b0] =>
    let w := b0 <<< 16
    [b64Char ((w >>> 18) &&& 63), b64Char ((w >>> 12) &&& 63), '=', '=']
  | [b0, b1] =>
    let w := (b0 <<< 16) ||| (b1 <<< 8)
    [b64Char ((w >>> 18) &&& 63), b64Char ((w >>> 12) &&& 63),
     b64Char ((w >>> 6) &&& 63), '=']
  | b0 :: b1 :: b2 :: rest =>
    let w := (b0 <<< 16) ||| (b1 <<< 8) ||| b2
    b64Char ((w >>> 18) &&& 63) :: b64Char ((w >>> 12) &&& 63) ::
      b64Char ((w >>> 6) &&& 63) :: b64Char (w &&& 63) :: base64encodeBytes rest

/-- The ASCII bytes of a string. -/
def strBytes (s : String) : List Nat := s.data.map Char.toNat

/-- The hard-coded handshake GUID of RFC 6455 §4.2.2. -/
def SEC_WEBSOCKET_KEY_GUID : String := "258EAFA5-E914-47DA-95CA-C5AB0DC85B11"

structure HttpRequest : Type where
  versionMajor : Nat
  versionMinor : Nat
  header : List HttpHeader
  deriving DecidableEq, Repr

structure HttpResponse : Type where
  versionMajor : Nat
  versionMinor : Nat
  statusCode : Nat
  header : List HttpHeader
  deriving DecidableEq, Repr

/-- `http_response_init` zeroes the response. -/
def httpResponseInit : HttpResponse :=
  { versionMajor := 0, versionMinor := 0, statusCode := 0, header := [] }

/-- `websocket_accept_http_request_reject`: set the status code and add
`Connection: Close`. -/
def wsReject (resp : HttpResponse) (code : Nat) : HttpResponse :=
  { resp with statusCode := code,
              header := addHeader resp.header "Connection" "Close" }

/-- `websocket_accept_http_request`: validate the upgrade request and build
either the 101 response with the computed `Sec-WebSocket-Accept` token or
the precise rejection response. -/
def wsAcceptHttpRequest (req : HttpRequest) : HttpResponse :=
  let resp0 := httpResponseInit
  if req.versionMajor ≠ 1 ∨ req.versionMinor < 1 then wsReject resp0 505
  else
    let resp1 := { resp0 with versionMajor := req.versionMajor,
                              versionMinor := req.versionMinor }
    match findHeader req.header "Upgrade" with
    | none => wsReject resp1 400
    | some hUp =>
      if ¬strCaseEq "websocket" hUp.value then wsReject resp1 400
      else
        match findHeader req.header "Connection" with
        | none => wsReject resp1 400
        | some hConn =>
          if ¬strCaseEq "upgrade" hConn.value then wsReject resp1 400
          else
            match findHeader req.header "Origin" with
            | none => wsReject resp1 403
            | some _ =>
              match findHeader req.header "Sec-WebSocket-Version" with
              | none => wsReject resp1 400
              | some hVer =>
                if hVer.value ≠ "13" then
                  let resp2 := wsReject resp1 400
                  { resp2 with
                      header := addHeader resp2.header "Sec-WebSocket-Version" "13" }
                else
                  match findHeader req.header "Sec-WebSocket-Key" with
                  | none => wsReject resp1 400
                  | some hKey =>
                    let digest := sha1 (strBytes hKey.value ++ strBytes SEC_WEBSOCKET_KEY_GUID)
                    let accept := String.mk (base64encodeBytes digest)
                    let resp2 := { resp1 with statusCode := 101 }
                    let resp3 := { resp2 with
                      header := addHeader resp2.header "Connection" "Upgrade" }
                    let resp4 := { resp3 with
                      header := addHeader resp3.header "Upgrade" "websocket" }
                    { resp4 with
                      header := addHeader resp4.header "Sec-WebSocket-Accept" accept }

/-- `get_status_string` (`src/http.c`). -/
def getStatusString (code : Nat) : String :=
  if code = 100 then "Continue"
  else if code = 101 then "Switching Protocols"
  else if code = 200 then "OK"
  else if code = 201 then "Created"
  else if code = 202 then "Accepted"
  else if code = 203 then "Non-Authoritative Information"
  else if code = 204 then "No Content"
  else if code = 205 then "Reset Content"
  else if code = 300 then "Multiple Choices"
  else if code = 301 then "Moved Permanently"
  else if code = 302 then "Found"
  else if code = 303 then "See Other"
  else if code = 305 then "Use Proxy"
  else if code = 307 then "Temporary Redirect"
  else if code = 400 then "Bad Request"
  else if code = 402 then "Payment Required"
  else if code = 403 then "Forbidden"
  else if code = 404 then "Not Found"
  else if code = 405 then "Method Not Allowed"
  else if code = 406 then "Not Acceptable"
  else if code = 408 then "Request Timeout"
  else if code = 409 then "Conflict"
  else if code = 410 then "Gone"
  else if code = 411 then "Length Required"
  else if code = 413 then "Payload Too Large"
  else if code = 414 then "URI Too Long"
  else if code = 415 then "Unsupported Media Type"
  else if code = 417 then "Expectation Failed"
  else if code = 426 then "Upgrade Required"
  else if code = 500 then "Internal Server Error"
  else if code = 501 then "Not Implemented"
  else if code = 502 then "Bad Gateway"
  else if code = 503 then "Service Unavailable"
  else if code = 504 then "Gateway Timeout"
  else if code = 505 then "HTTP Version Not Supported"
  else ""

/-- The status line `http_response_write_evbuffer` emits, without the
trailing CRLF. -/
def responseFirstLine (resp : HttpResponse) : String :=
  "HTTP/" ++ toString resp.versionMajor ++ "." ++ toString resp.versionMinor ++
    " " ++ toString resp.statusCode ++ " " ++ getStatusString resp.statusCode

/-- The scenario-1 handshake request, headers added in parse order by
`http_request_add_header`. -/
def scenario1Request : HttpRequest :=
  { versionMajor := 1, versionMinor := 1,
    header :=
      addHeader (addHeader (addHeader (addHeader (addHeader (addHeader []
        "Host" "example.com")
        "Upgrade" "websocket")
        "Connection" "Upgrade")
        "Origin" "http://example.com")
        "Sec-WebSocket-Version" "13")
        "Sec-WebSocket-Key" "dGhlIHNhbXBsZSBub25jZQ==" }

set_option maxRecDepth 100000 in
/-- C6: on the scenario-1 handshake request (HTTP/1.1, Host example.com,
Upgrade websocket, Connection Upgrade, Origin present, version 13, key
dGhlIHNhbXBsZSBub25jZQ==), the handshake responds with first line
`HTTP/1.1 101 Switching Protocols` and a `Sec-WebSocket-Accept` value of
`s3pPLMBiTxaQ9kYGzzhZRbK+xOo=`. -/
theorem handshake_scenario1_accept :
    responseFirstLine (wsAcceptHttpRequest scenario1Request) =
      "HTTP/1.1 101 Switching Protocols" ∧
    (findHeader (wsAcceptHttpRequest scenario1Request).header
        "Sec-WebSocket-Accept").map HttpHeader.value =
      some "s3pPLMBiTxaQ9kYGzzhZRbK+xOo=" := by
  refine ⟨by decide, by decide⟩

end RWP
